import Mathlib

/-!
Verification of the shell-variable file engine (`shvar.c`) of the
ifcfg-rh settings plugin.  Bytes are modelled as natural numbers in
`[0, 255]`; C strings are lists of non-zero bytes (the terminating NUL
is the end of the list).  The C type `char` is signed on the reference
platform (x86-64 Linux), which matters for comparisons such as
`s[i] < ' '`: bytes `0x80..0xFF` compare as negative values.
-/

/-- `g_ascii_isspace`: space, \t, \n, \v, \f, \r. -/
def isSpaceG (c : Nat) : Bool := c == 32 || (9 ≤ c && c ≤ 13)

/-- `g_ascii_isalpha` (ASCII letters only). -/
def isAlphaG (c : Nat) : Bool := (65 ≤ c && c ≤ 90) || (97 ≤ c && c ≤ 122)

/-- `g_ascii_isalnum`. -/
def isAlnumG (c : Nat) : Bool := isAlphaG c || (48 ≤ c && c ≤ 57)

/-- `g_ascii_isxdigit`. -/
def isXdigitG (c : Nat) : Bool :=
  (48 ≤ c && c ≤ 57) || (65 ≤ c && c ≤ 70) || (97 ≤ c && c ≤ 102)

/-- The value of a byte read through a (signed) `char` lvalue. -/
def sChar (c : Nat) : Int := if c < 128 then (c : Int) else (c : Int) - 256

/-- `_shell_is_name` on a whole C string (the `len < 0` mode). -/
def shellIsName (key : List Nat) : Bool :=
  match key with
  | [] => false
  | c :: rest => (isAlphaG c || c == 95) && rest.all (fun d => isAlnumG d || d == 95)

/-- `_char_req_escape`: the set of double quote, backslash, dollar, backtick. -/
def charReqEscape (c : Nat) : Bool := c == 34 || c == 92 || c == 36 || c == 96

/-- `_char_req_escape_old`: the set `" \ ' $ ` ~`. -/
def charReqEscapeOld (c : Nat) : Bool :=
  c == 34 || c == 92 || c == 39 || c == 36 || c == 96 || c == 126

/-- `_char_req_quotes`: space, `'`, `~`, tab, `| & ; ( ) < >`. -/
def charReqQuotes (c : Nat) : Bool :=
  c == 32 || c == 39 || c == 126 || c == 9 || c == 124 || c == 38 ||
  c == 59 || c == 40 || c == 41 || c == 60 || c == 62

/-- `_ch_octal_is`. -/
def chOctalIs (c : Nat) : Bool := 48 ≤ c && c < 56

/-- `_ch_octal_get`. -/
def chOctalGet (c : Nat) : Nat := c - 48

/-- `_ch_hex_get`: `ch <= 57 ? ch - 48 : (ch & 0x4F) - 65 + 10`. -/
def chHexGet (c : Nat) : Nat := if c ≤ 57 then c - 48 else (c &&& 79) - 65 + 10

/-- The three-octal-digit escape of `_escape_ansic`:
`'0' + ((p >> k) & 07)` computed on the signed `char` value with
arithmetic shifts (floor division) and two's-complement masking. -/
def octEsc (c : Nat) : List Nat :=
  [92,
   (48 + ((sChar c).fdiv 64).emod 8).toNat,
   (48 + ((sChar c).fdiv 8).emod 8).toNat,
   (48 + (sChar c).emod 8).toNat]

/-- Per-byte escaping of `_escape_ansic`'s loop body. -/
def ansicEscChar (c : Nat) : List Nat :=
  if c == 8 then [92, 98]
  else if c == 12 then [92, 102]
  else if c == 10 then [92, 110]
  else if c == 13 then [92, 114]
  else if c == 9 then [92, 116]
  else if c == 11 then [92, 118]
  else if c == 92 || c == 34 || c == 39 then [92, c]
  else if sChar c < 32 || 127 ≤ sChar c then octEsc c
  else [c]

/-- `_escape_ansic`: wrap in `$'...'` and escape each byte. -/
def escapeAnsic (s : List Nat) : List Nat :=
  36 :: 39 :: (s.flatMap ansicEscChar ++ [39])

/-- Whether `svEscape`'s scan hits the `s[i] < ' '` branch (after the
escape-set and quote-set tests) for some byte. -/
def svEscapeNeedsAnsic (s : List Nat) : Bool :=
  s.any (fun c => !charReqEscape c && !charReqQuotes c && decide (sChar c < 32))

/-- `svEscape`. -/
def svEscape (s : List Nat) : List Nat :=
  if svEscapeNeedsAnsic s then escapeAnsic s
  else if s.any charReqEscape || s.any charReqQuotes then
    34 :: (s.flatMap (fun c => if charReqEscape c then [92, c] else [c]) ++ [34])
  else s

/-- The scan of `_looks_like_old_svescaped` after the initial `"`. -/
def looksLikeOldTail : List Nat → Bool
  | [] => false
  | c :: rest =>
    if !charReqEscapeOld c then looksLikeOldTail rest
    else if c == 34 then rest == []
    else if c == 92 then
      match rest with
      | [] => false
      | d :: rest2 => if charReqEscapeOld d then looksLikeOldTail rest2 else false
    else false

/-- `_looks_like_old_svescaped`. -/
def looksLikeOldSvescaped : List Nat → Bool
  | 34 :: rest => looksLikeOldTail rest
  | _ => false

/-- Read up to two further octal digits (`svUnescape`'s octal escape). -/
def readOct2 (v : Nat) : List Nat → Nat × List Nat
  | [] => (v, [])
  | c :: r =>
    if chOctalIs c then
      match r with
      | [] => (v * 8 + chOctalGet c, [])
      | c2 :: r2 =>
        if chOctalIs c2 then ((v * 8 + chOctalGet c) * 8 + chOctalGet c2, r2)
        else (v * 8 + chOctalGet c, c2 :: r2)
    else (v, c :: r)

/-- Read up to `n` further hex digits (`svUnescape`'s `\x`, `\u`, `\U`). -/
def readHex : Nat → Nat → List Nat → Nat × List Nat
  | 0, v, rest => (v, rest)
  | _ + 1, v, [] => (v, [])
  | n + 1, v, c :: r =>
    if isXdigitG c then readHex n (v * 16 + chHexGet c) r else (v, c :: r)

/-- `g_unichar_to_utf8` as used by `g_string_append_unichar`. -/
def utf8Encode (w : Nat) : List Nat :=
  if w < 128 then [w]
  else if w < 2048 then [192 + w / 64, 128 + w % 64]
  else if w < 65536 then [224 + w / 4096, 128 + (w / 64) % 64, 128 + w % 64]
  else if w < 2097152 then
    [240 + w / 262144, 128 + (w / 4096) % 64, 128 + (w / 64) % 64, 128 + w % 64]
  else if w < 67108864 then
    [248 + w / 16777216, 128 + (w / 262144) % 64, 128 + (w / 4096) % 64,
     128 + (w / 64) % 64, 128 + w % 64]
  else
    [252 + w / 1073741824, 128 + (w / 16777216) % 64, 128 + (w / 262144) % 64,
     128 + (w / 4096) % 64, 128 + (w / 64) % 64, 128 + w % 64]

/-- The trailing-content test of `svUnescape`'s whitespace branch: after
the first whitespace or semicolon, only whitespace and at most one
semicolon in total may follow, ending at NUL or a `#` comment. -/
def trailingOk : Bool → List Nat → Bool
  | _, [] => true
  | hs, c :: rest =>
    if isSpaceG c then trailingOk hs rest
    else if !hs && c == 59 then trailingOk true rest
    else c == 35

/-- The `out_value` result of `svUnescape`: with an initialized GString,
an empty buffer or a leading NUL yields the empty value. -/
def unescFinish (acc : List Nat) (inited : Bool) : List Nat :=
  if inited then
    match acc with
    | [] => []
    | c :: _ => if c == 0 then [] else acc
  else acc

/-- Parser modes of `svUnescape`: top level, inside double quotes,
inside ANSI-C `$'...'` quotes. -/
inductive UMode
  | top
  | dq
  | ansi
deriving DecidableEq

theorem dropWhileLenLe (p : Nat → Bool) (l : List Nat) :
    (l.dropWhile p).length ≤ l.length := by
  induction l with
  | nil => simp
  | cons c r ih =>
    rw [List.dropWhile_cons]
    split
    · exact Nat.le_trans ih (by simp)
    · simp

theorem readOct2_length_le (v : Nat) (rest : List Nat) :
    (readOct2 v rest).2.length ≤ rest.length := by
  rcases rest with _ | ⟨c, _ | ⟨c2, r2⟩⟩ <;> simp only [readOct2]
  · simp
  · split <;> simp
  · split
    · split <;> simp_arith
    · simp

theorem sqTailLen (rest1 : List Nat) :
    ((rest1.dropWhile (fun d => d != 39)).tail).length < rest1.length + 1 := by
  have h1 : (rest1.dropWhile (fun d => d != 39)).length ≤ rest1.length :=
    dropWhileLenLe _ _
  have h2 : ((rest1.dropWhile (fun d => d != 39)).tail).length =
      (rest1.dropWhile (fun d => d != 39)).length - 1 := List.length_tail _
  omega

theorem readHex_length_le (n v : Nat) (rest : List Nat) :
    (readHex n v rest).2.length ≤ rest.length := by
  induction n generalizing v rest with
  | zero => simp [readHex]
  | succ k ih =>
    cases rest with
    | nil => simp [readHex]
    | cons c r =>
      simp only [readHex]
      split
      · exact Nat.le_trans (ih _ _) (by simp)
      · simp

/-- The scanning loop of `svUnescape`.  `orig` is the full input (needed
by the legacy-compat heuristic), `rest` the unread suffix, `acc` the
bytes decoded so far, and `inited` whether the C code has allocated its
GString (before that, `acc` coincides with the consumed prefix of
`orig`).  `none` is the `out_error` result. -/
def unescGo (orig : List Nat) (mode : UMode) (rest acc : List Nat)
    (inited : Bool) : Option (List Nat) :=
  match mode, rest with
  | .top, [] => some (unescFinish acc inited)
  | .top, c :: rest1 =>
    if isSpaceG c || c == 59 then
      if trailingOk (c == 59) rest1 then some (unescFinish acc inited) else none
    else if c == 92 then
      match rest1 with
      | [] => none
      | d :: rest2 => unescGo orig .top rest2 (acc ++ [d]) true
    else if c == 39 then
      if (rest1.dropWhile (fun d => d != 39)).isEmpty then none
      else
        unescGo orig .top ((rest1.dropWhile (fun d => d != 39)).tail)
          (acc ++ rest1.takeWhile (fun d => d != 39)) true
    else if c == 34 then
      unescGo orig .dq rest1 acc true
    else if c == 36 && rest1.head? == some 39 then
      unescGo orig .ansi rest1.tail acc true
    else if c == 124 || c == 38 || c == 40 || c == 41 || c == 60 || c == 62 then
      none
    else
      unescGo orig .top rest1 (acc ++ [c]) inited
  | .dq, [] => none
  | .dq, c :: rest1 =>
    if c == 34 then unescGo orig .top rest1 acc inited
    else if c == 96 || c == 36 then none
    else if c == 92 then
      match rest1 with
      | [] => none
      | d :: rest2 =>
        if d == 36 || d == 96 || d == 34 || d == 92 then
          unescGo orig .dq rest2 (acc ++ [d]) inited
        else if d == 39 || d == 126 then
          if looksLikeOldSvescaped orig then
            unescGo orig .dq rest2 (acc ++ [d]) inited
          else
            unescGo orig .dq rest2 (acc ++ [92, d]) inited
        else
          unescGo orig .dq rest2 (acc ++ [92, d]) inited
    else unescGo orig .dq rest1 (acc ++ [c]) inited
  | .ansi, [] => none
  | .ansi, c :: rest1 =>
    if c == 39 then unescGo orig .top rest1 acc inited
    else if c == 92 then
      match rest1 with
      | [] => none
      | d :: rest2 =>
        if d == 97 then unescGo orig .ansi rest2 (acc ++ [7]) inited
        else if d == 98 then unescGo orig .ansi rest2 (acc ++ [8]) inited
        else if d == 101 || d == 69 then unescGo orig .ansi rest2 (acc ++ [27]) inited
        else if d == 102 then unescGo orig .ansi rest2 (acc ++ [12]) inited
        else if d == 110 then unescGo orig .ansi rest2 (acc ++ [10]) inited
        else if d == 114 then unescGo orig .ansi rest2 (acc ++ [13]) inited
        else if d == 116 then unescGo orig .ansi rest2 (acc ++ [9]) inited
        else if d == 118 then unescGo orig .ansi rest2 (acc ++ [11]) inited
        else if d == 63 then unescGo orig .ansi rest2 (acc ++ [63]) inited
        else if d == 34 then unescGo orig .ansi rest2 (acc ++ [34]) inited
        else if d == 92 then unescGo orig .ansi rest2 (acc ++ [92]) inited
        else if d == 39 then unescGo orig .ansi rest2 (acc ++ [39]) inited
        else if chOctalIs d then
          unescGo orig .ansi (readOct2 (chOctalGet d) rest2).2
            (acc ++ [(readOct2 (chOctalGet d) rest2).1 % 256]) inited
        else if d == 120 || d == 117 || d == 85 then
          match rest2 with
          | [] => unescGo orig .ansi [] (acc ++ [92, d]) inited
          | e :: rest3 =>
            if isXdigitG e then
              if d == 120 then
                unescGo orig .ansi (readHex 1 (chHexGet e) rest3).2
                  (acc ++ [(readHex 1 (chHexGet e) rest3).1 % 256]) inited
              else if d == 117 then
                unescGo orig .ansi (readHex 3 (chHexGet e) rest3).2
                  (acc ++ utf8Encode (readHex 3 (chHexGet e) rest3).1) inited
              else
                unescGo orig .ansi (readHex 7 (chHexGet e) rest3).2
                  (acc ++ utf8Encode (readHex 7 (chHexGet e) rest3).1) inited
            else
              unescGo orig .ansi (e :: rest3) (acc ++ [92, d]) inited
        else unescGo orig .ansi rest2 (acc ++ [92, d]) inited
    else unescGo orig .ansi rest1 (acc ++ [c]) inited
termination_by rest.length
decreasing_by
  all_goals simp_wf
  all_goals first
  | omega
  | (have h := dropWhileLenLe (fun d => d != 39) rest1; omega)
  | exact Nat.lt_of_le_of_lt (readOct2_length_le _ _) (by omega)
  | exact Nat.lt_of_le_of_lt (readHex_length_le _ _ _) (by omega)

/-- `svUnescape`: `none` is the C NULL (error) result. -/
def svUnescape (value : List Nat) : Option (List Nat) :=
  unescGo value .top value [] false

/-- `shvarLine`: case 1 of the C comment is `raw` (no key, whole line
kept in `line`); cases 2 and 3 are `assign` with the key including its
whitespace in `kwp` (the C field `key_with_prefix`) and the
still-escaped text after the `=` in `line` (`none` when marked for
deletion). -/
inductive ShvarLine
  | raw (line : List Nat)
  | assign (kwp : List Nat) (line : Option (List Nat))
deriving DecidableEq, Repr

/-- The `key` pointer of a `shvarLine`: `key_with_prefix` after
`nm_str_skip_leading_spaces`, or NULL for an unparsed line. -/
def lineKey : ShvarLine → Option (List Nat)
  | .raw _ => none
  | .assign kwp _ => some (kwp.dropWhile isSpaceG)

/-- The match test of `shlist_find`: `line->key && nm_streq (line->key, key)`. -/
def lineMatches (l : ShvarLine) (key : List Nat) : Bool := lineKey l == some key

/-- `shvarFile`, keeping the fields the pure model can express. -/
structure ShvarFile where
  lineList : List ShvarLine
  modified : Bool
deriving DecidableEq, Repr

/-- The `_svGetValue` scan: the last list entry whose key matches. -/
def findLastKey (ls : List ShvarLine) (key : List Nat) : Option ShvarLine :=
  match ls with
  | [] => none
  | l :: rest =>
    match findLastKey rest key with
    | some r => some r
    | none => if lineMatches l key then some l else none

/-- `line_new_parse` on one line (without its newline). -/
def lineNewParse (v : List Nat) : ShvarLine :=
  let r := v.dropWhile isSpaceG
  match r with
  | [] => .raw v
  | c :: _ =>
    if isAlphaG c || c == 95 then
      match r.dropWhile (fun d => isAlnumG d || d == 95) with
      | 61 :: val =>
        .assign (v.takeWhile isSpaceG ++ r.takeWhile (fun d => isAlnumG d || d == 95))
          (some val)
      | _ => .raw v
    else .raw v

/-- `line_new_build`. -/
def lineNewBuild (key value : List Nat) : ShvarLine :=
  .assign key (some (svEscape value))

/-- `line_set`: strips whitespace off `key_with_prefix` (reporting a
change), then replaces the stored text unless it already equals the new
escaping.  The Bool is the returned `changed` flag. -/
def lineSet (l : ShvarLine) (value : List Nat) : ShvarLine × Bool :=
  match l with
  | .raw t => (.raw t, false)
  | .assign kwp old =>
    let kwp2 := kwp.dropWhile isSpaceG
    let changed := kwp2 != kwp
    let esc := svEscape value
    match old with
    | some t =>
      if esc = t then (.assign kwp2 old, changed)
      else (.assign kwp2 (some esc), true)
    | none => (.assign kwp2 (some esc), true)

/-- `nm_clear_g_free (&line->line)` on a line: the Bool tells whether
the pointer was non-NULL. -/
def lineClear : ShvarLine → ShvarLine × Bool
  | .raw t => (.raw t, false)
  | .assign kwp (some _) => (.assign kwp none, true)
  | .assign kwp none => (.assign kwp none, false)

/-- The duplicate-deleting walk of `svSetValue`: every matching entry
with a later match is freed and unlinked; the last match survives. -/
def dedupKey : List ShvarLine → List Nat → List ShvarLine
  | [], _ => []
  | l :: rest, key =>
    if lineMatches l key && rest.any (fun l2 => lineMatches l2 key) then
      dedupKey rest key
    else l :: dedupKey rest key

/-- Apply `f` to the last entry matching `key` (the node `last` of
`svSetValue`), returning the new list and `f`'s flag. -/
def mapLastKey (f : ShvarLine → ShvarLine × Bool) :
    List ShvarLine → List Nat → List ShvarLine × Bool
  | [], _ => ([], false)
  | l :: rest, key =>
    if lineMatches l key && !(rest.any (fun l2 => lineMatches l2 key)) then
      ((f l).1 :: rest, (f l).2)
    else
      (l :: (mapLastKey f rest key).1, (mapLastKey f rest key).2)

/-- `svSetValue`. -/
def svSetValue (s : ShvarFile) (key : List Nat) (value : Option (List Nat)) :
    ShvarFile :=
  let dup := 2 ≤ s.lineList.countP (fun l => lineMatches l key)
  let ls1 := dedupKey s.lineList key
  let m1 := s.modified || dup
  match value with
  | none =>
    let r := mapLastKey lineClear ls1 key
    ⟨r.1, m1 || r.2⟩
  | some v =>
    if ls1.any (fun l => lineMatches l key) then
      let r := mapLastKey (fun l => lineSet l v) ls1 key
      ⟨r.1, m1 || r.2⟩
    else
      ⟨ls1 ++ [lineNewBuild key v], true⟩

/-- `svSetValueString`: the empty value means removal. -/
def svSetValueString (s : ShvarFile) (key value : List Nat) : ShvarFile :=
  svSetValue s key (if value = [] then none else some value)

/-- `svUnsetValue`. -/
def svUnsetValue (s : ShvarFile) (key : List Nat) : ShvarFile :=
  svSetValue s key none

/-- `_svGetValue`: decode the last matching entry's stored text, if any. -/
def svGetValue (s : ShvarFile) (key : List Nat) : Option (List Nat) :=
  match findLastKey s.lineList key with
  | some (.assign _ (some t)) => svUnescape t
  | _ => none

/-- `svGetValueString`: NULL when `_svGetValue` gives NULL or an empty
string (`!value[0]`). -/
def svGetValueString (s : ShvarFile) (key : List Nat) : Option (List Nat) :=
  match svGetValue s key with
  | some (c :: w) => if c == 0 then none else some (c :: w)
  | _ => none

/-- The `#NM: ` marker prefix written by `svWriteFile`. -/
def nmMarker : List Nat := [35, 78, 77, 58, 32]

/-- One iteration of `svWriteFile`'s output loop. -/
def emitLine : ShvarLine → List Nat
  | .raw t =>
    match t.dropWhile isSpaceG with
    | [] => t ++ [10]
    | c :: _ => if c == 35 then t ++ [10] else nmMarker ++ t ++ [10]
  | .assign _ none => []
  | .assign kwp (some t) =>
    if (svUnescape t).isSome then kwp ++ 61 :: t ++ [10]
    else (kwp.dropWhile isSpaceG) ++ [61, 10] ++ (nmMarker ++ kwp ++ 61 :: t ++ [10])

/-- The byte stream `svWriteFile` writes for a line list. -/
def writeLines (ls : List ShvarLine) : List Nat := (ls.map emitLine).flatten

/-- `svWriteFile`, with the on-disk bytes made explicit: when
`modified` is unset nothing is opened, truncated or written and the
call reports success (IO failures are outside this model). -/
def svWriteFile (s : ShvarFile) (disk : List Nat) : Bool × List Nat :=
  if s.modified then (true, writeLines s.lineList) else (true, disk)

/-- The line splitting of `svOpenFileInternal`: segments before each
newline, plus a final segment without newline if non-empty. -/
def splitLines (c : List Nat) : List (List Nat) :=
  let parts := c.splitOn 10
  if parts.getLast? = some [] then parts.dropLast else parts

/-- Parsing a whole file's bytes into a `shvarFile` (the pure part of
`svOpenFileInternal`). -/
def svParseContent (c : List Nat) : ShvarFile :=
  ⟨(splitLines c).map lineNewParse, false⟩

theorem findLastKey_none_iff (ls : List ShvarLine) (key : List Nat) :
    findLastKey ls key = none ↔ ls.all (fun l => !lineMatches l key) = true := by
  induction ls with
  | nil => simp [findLastKey]
  | cons l rest ih =>
    simp only [findLastKey, List.all_cons, Bool.and_eq_true, ← ih]
    cases hr : findLastKey rest key with
    | some r => simp
    | none =>
      cases hm : lineMatches l key <;> simp [hm]

theorem findLastKey_split (ls pre post : List ShvarLine) (l : ShvarLine)
    (key : List Nat) (hsplit : ls = pre ++ l :: post)
    (hl : lineMatches l key = true)
    (hpost : post.all (fun x => !lineMatches x key) = true) :
    findLastKey ls key = some l := by
  subst hsplit
  induction pre with
  | nil =>
    have hnone : findLastKey post key = none := (findLastKey_none_iff post key).2 hpost
    simp [findLastKey, hnone, hl]
  | cons p pre2 ih =>
    simp only [List.cons_append, findLastKey, List.append_eq, ih]

theorem anyNotAll (ls : List ShvarLine) (key : List Nat) :
    ls.any (fun l => lineMatches l key) = false ↔
      ls.all (fun l => !lineMatches l key) = true := by
  induction ls with
  | nil => simp
  | cons l rest ih => simp_all [List.any_cons, List.all_cons]

theorem dedupKey_no_match (ls : List ShvarLine) (key : List Nat)
    (h : ls.all (fun l => !lineMatches l key) = true) : dedupKey ls key = ls := by
  induction ls with
  | nil => rfl
  | cons l rest ih =>
    simp only [List.all_cons, Bool.and_eq_true] at h
    have h1 : lineMatches l key = false := by simpa using h.1
    simp [dedupKey, h1, ih h.2]

theorem dedupKey_single (pre post : List ShvarLine) (l : ShvarLine) (key : List Nat)
    (hl : lineMatches l key = true)
    (hpre : pre.all (fun x => !lineMatches x key) = true)
    (hpost : post.all (fun x => !lineMatches x key) = true) :
    dedupKey (pre ++ l :: post) key = pre ++ l :: post := by
  induction pre with
  | nil =>
    have hany : post.any (fun x => lineMatches x key) = false := (anyNotAll post key).2 hpost
    simp [dedupKey, hany, dedupKey_no_match post key hpost]
  | cons p pre2 ih =>
    simp only [List.all_cons, Bool.and_eq_true] at hpre
    have h1 : lineMatches p key = false := by simpa using hpre.1
    simp [dedupKey, h1, ih hpre.2]

theorem mapLastKey_single (f : ShvarLine → ShvarLine × Bool)
    (pre post : List ShvarLine) (l : ShvarLine) (key : List Nat)
    (hl : lineMatches l key = true)
    (hpre : pre.all (fun x => !lineMatches x key) = true)
    (hpost : post.all (fun x => !lineMatches x key) = true) :
    mapLastKey f (pre ++ l :: post) key = (pre ++ (f l).1 :: post, (f l).2) := by
  induction pre with
  | nil =>
    have hany : post.any (fun x => lineMatches x key) = false := (anyNotAll post key).2 hpost
    simp [mapLastKey, hl, hany]
  | cons p pre2 ih =>
    simp only [List.all_cons, Bool.and_eq_true] at hpre
    have h1 : lineMatches p key = false := by simpa using hpre.1
    simp [mapLastKey, h1, ih hpre.2]

theorem countP_single (pre post : List ShvarLine) (l : ShvarLine) (key : List Nat)
    (hl : lineMatches l key = true)
    (hpre : pre.all (fun x => !lineMatches x key) = true)
    (hpost : post.all (fun x => !lineMatches x key) = true) :
    (pre ++ l :: post).countP (fun x => lineMatches x key) = 1 := by
  have h1 : pre.countP (fun x => lineMatches x key) = 0 := by
    rw [List.countP_eq_zero]
    intro a ha
    have := List.all_eq_true.1 hpre a ha
    simpa using this
  have h2 : post.countP (fun x => lineMatches x key) = 0 := by
    rw [List.countP_eq_zero]
    intro a ha
    have := List.all_eq_true.1 hpost a ha
    simpa using this
  rw [List.countP_append, List.countP_cons]
  simp [h1, h2, hl]

theorem lineMatches_any_single (pre post : List ShvarLine) (l : ShvarLine)
    (key : List Nat) (hl : lineMatches l key = true) :
    (pre ++ l :: post).any (fun x => lineMatches x key) = true := by
  simp only [List.any_append, List.any_cons, hl]
  simp

set_option maxRecDepth 8000 in
theorem needsAnsicCharEq : ∀ b < 256,
    (!charReqEscape b && !charReqQuotes b && decide (sChar b < 32)) =
      ((decide (b < 32) && b != 9) || decide (128 ≤ b)) := by decide

theorem needsAnsicEq (v : List Nat) (h : ∀ b ∈ v, b < 256) :
    svEscapeNeedsAnsic v =
      v.any (fun b => (decide (b < 32) && b != 9) || decide (128 ≤ b)) := by
  induction v with
  | nil => rfl
  | cons c w ih =>
    simp only [svEscapeNeedsAnsic, List.any_cons] at *
    rw [needsAnsicCharEq c (h c (by simp)), ih (fun b hb => h b (by simp [hb]))]

/-- C2 (amended): `svEscape` picks among three forms by content only,
but the ANSI-C tier is entered exactly for bytes that are control
characters other than tab (tab is in the quote-requiring set) or bytes
`>= 0x80` (which compare below space through the signed `char`); given
no such byte, the double-quoted tier is used when some byte needs
escaping or quoting, and the plain form otherwise. -/
theorem svEscape_three_tiers (v : List Nat) (h : ∀ b ∈ v, b < 256) :
    svEscapeNeedsAnsic v =
        v.any (fun b => (decide (b < 32) && b != 9) || decide (128 ≤ b))
    ∧ (svEscapeNeedsAnsic v = true → svEscape v = escapeAnsic v)
    ∧ (svEscapeNeedsAnsic v = false →
        (v.any charReqEscape || v.any charReqQuotes) = true →
        svEscape v =
          34 :: (v.flatMap (fun c => if charReqEscape c then [92, c] else [c]) ++ [34]))
    ∧ (svEscapeNeedsAnsic v = false →
        (v.any charReqEscape || v.any charReqQuotes) = false →
        svEscape v = v) := by
  refine ⟨needsAnsicEq v h, ?_, ?_, ?_⟩
  · intro h1; simp [svEscape, h1]
  · intro h1 h2; simp [svEscape, h1, h2]
  · intro h1 h2; simp [svEscape, h1, h2]

/-- C2 witness: a space forces the double-quoted tier. -/
theorem svEscape_three_tiers_witness :
    svEscape [104, 32, 105] =
      34 :: ([104, 32, 105].flatMap
        (fun c => if charReqEscape c then [92, c] else [c]) ++ [34]) :=
  (svEscape_three_tiers [104, 32, 105] (by decide)).2.2.1 (by decide) (by decide)

/-- C2 counterexample: tab (byte 9, a control character below 0x20)
does not force the ANSI-C form, while byte 200 (at or above 0x20 and
0x80) does force it. -/
theorem svEscape_three_tiers_counterexample :
    ((9 : Nat) < 32 ∧ svEscape [9] = [34, 9, 34] ∧ svEscape [9] ≠ escapeAnsic [9])
    ∧ ((32 : Nat) ≤ 200 ∧ svEscape [200] = escapeAnsic [200]
        ∧ escapeAnsic [200] ≠ [200]) := by decide

/-- C9: writing back a document whose `modified` flag is unset performs
no write or truncation, leaves the on-disk bytes unchanged, and
reports success. -/
theorem svWriteFile_unmodified_noop (s : ShvarFile) (disk : List Nat)
    (h : s.modified = false) : svWriteFile s disk = (true, disk) := by
  simp [svWriteFile, h]

/-- C9 witness. -/
theorem svWriteFile_unmodified_noop_witness :
    svWriteFile ⟨[ShvarLine.raw [101]], false⟩ [101, 10] = (true, [101, 10]) :=
  svWriteFile_unmodified_noop ⟨[ShvarLine.raw [101]], false⟩ [101, 10] rfl

/-- C7 (amended): a raw line whose text, after stripping leading
whitespace, is empty or starts with `#` is emitted verbatim plus a
newline; any other raw line is emitted with the `#NM: ` marker. -/
theorem emitLine_raw_rule (t : List Nat) :
    (((t.dropWhile isSpaceG).head? = none ∨ (t.dropWhile isSpaceG).head? = some 35) →
      emitLine (.raw t) = t ++ [10])
    ∧ (∀ c, (t.dropWhile isSpaceG).head? = some c → ¬c = 35 →
      emitLine (.raw t) = nmMarker ++ t ++ [10]) := by
  constructor
  · intro h
    cases hd : t.dropWhile isSpaceG with
    | nil => simp [emitLine, hd]
    | cons c r =>
      rcases h with h | h
      · rw [hd] at h; simp at h
      · rw [hd] at h
        simp only [List.head?_cons, Option.some.injEq] at h
        subst h
        simp [emitLine, hd]
  · intro c hc hne
    cases hd : t.dropWhile isSpaceG with
    | nil => rw [hd] at hc; simp at hc
    | cons c2 r =>
      rw [hd] at hc
      simp only [List.head?_cons, Option.some.injEq] at hc
      subst hc
      simp [emitLine, hd, hne]

/-- C7 witness: a comment line is kept verbatim. -/
theorem emitLine_raw_rule_witness :
    emitLine (.raw [35, 120]) = [35, 120] ++ [10] :=
  (emitLine_raw_rule [35, 120]).1 (Or.inr (by decide))

/-- C7 counterexample: the all-whitespace line consisting of one space
is neither empty nor has `#` as its first non-whitespace character, yet
it is emitted verbatim, not with the `#NM: ` marker. -/
theorem emitLine_raw_counterexample :
    ([32] : List Nat) ≠ []
    ∧ (([32] : List Nat).dropWhile isSpaceG).head? ≠ some 35
    ∧ emitLine (.raw [32]) = [32, 10]
    ∧ ([32, 10] : List Nat) ≠ nmMarker ++ [32] ++ [10] := by decide

/-- C8: an assignment whose non-empty stored text fails to decode is
written as `key=` followed by a `#NM: `-marked copy of the original
`key_prefix=value` text; one whose text decodes is written verbatim. -/
theorem emitLine_assign_rule (kwp t : List Nat) (hne : t ≠ []) :
    (svUnescape t = none →
      emitLine (.assign kwp (some t)) =
        (kwp.dropWhile isSpaceG) ++ [61, 10] ++ (nmMarker ++ kwp ++ 61 :: t ++ [10]))
    ∧ (∀ w, svUnescape t = some w →
      emitLine (.assign kwp (some t)) = kwp ++ 61 :: t ++ [10]) := by
  constructor
  · intro h; simp [emitLine, h]
  · intro w h; simp [emitLine, h]

/-- C8 witness: the unterminated `FOO="bad` is neutralized. -/
theorem emitLine_assign_rule_witness :
    emitLine (.assign [70, 79, 79] (some [34, 98, 97, 100])) =
      (([70, 79, 79] : List Nat).dropWhile isSpaceG) ++ [61, 10] ++
        (nmMarker ++ [70, 79, 79] ++ 61 :: [34, 98, 97, 100] ++ [10]) :=
  (emitLine_assign_rule [70, 79, 79] [34, 98, 97, 100] (by decide)).1
    (by simp [svUnescape, unescGo, isSpaceG, trailingOk])

/-- C5 (amended): on a document holding exactly one assignment for
`key` whose `key_with_prefix` carries no leading whitespace, setting a
present value replaces the stored text and marks the document modified
exactly when the new encoding differs from the stored text; when they
agree, document and flag are untouched.  (With a whitespace prefix the
code additionally strips the prefix and reports a change even for an
identical encoding — see the counterexample.) -/
theorem svSetValue_single_replace (pre post : List ShvarLine) (olv : Option (List Nat))
    (key v : List Nat) (m : Bool)
    (hkey : key.dropWhile isSpaceG = key)
    (hpre : pre.all (fun x => !lineMatches x key) = true)
    (hpost : post.all (fun x => !lineMatches x key) = true) :
    (olv = some (svEscape v) →
      svSetValue ⟨pre ++ .assign key olv :: post, m⟩ key (some v) =
        ⟨pre ++ .assign key olv :: post, m⟩)
    ∧ (¬olv = some (svEscape v) →
      svSetValue ⟨pre ++ .assign key olv :: post, m⟩ key (some v) =
        ⟨pre ++ .assign key (some (svEscape v)) :: post, true⟩) := by
  have hl : lineMatches (ShvarLine.assign key olv) key = true := by
    simp [lineMatches, lineKey, hkey]
  have hded := dedupKey_single pre post _ key hl hpre hpost
  have hcount := countP_single pre post _ key hl hpre hpost
  have hany := lineMatches_any_single pre post _ key hl
  have hmap := mapLastKey_single (fun x => lineSet x v) pre post _ key hl hpre hpost
  constructor
  · intro h
    subst h
    have hset : lineSet (ShvarLine.assign key (some (svEscape v))) v =
        (ShvarLine.assign key (some (svEscape v)), false) := by
      simp [lineSet, hkey]
    simp only [svSetValue, hded, hcount, hany, hmap, hset]
    simp
  · intro h
    have hset : lineSet (ShvarLine.assign key olv) v =
        (ShvarLine.assign key (some (svEscape v)), true) := by
      cases olv with
      | none => simp [lineSet, hkey]
      | some t =>
        have ht : ¬svEscape v = t := fun he => h (by rw [he])
        simp [lineSet, hkey, ht]
    simp only [svSetValue, hded, hcount, hany, hmap, hset]
    simp

/-- C5 witness: re-setting `FOO=bar` to `bar` is a no-op. -/
theorem svSetValue_single_replace_witness :
    svSetValue ⟨[ShvarLine.assign [70, 79, 79] (some [98, 97, 114])], false⟩
        [70, 79, 79] (some [98, 97, 114]) =
      ⟨[ShvarLine.assign [70, 79, 79] (some [98, 97, 114])], false⟩ :=
  (svSetValue_single_replace [] [] (some [98, 97, 114]) [70, 79, 79] [98, 97, 114]
    false (by decide) (by decide) (by decide)).1 (by decide)

/-- C5 counterexample: on the single record `  FOO=bar` (leading
whitespace in the key prefix), setting `bar` again stores an identical
encoding, yet the record is rewritten and the document marked
modified. -/
theorem svSetValue_single_replace_counterexample :
    svEscape [98, 97, 114] = [98, 97, 114]
    ∧ (svSetValue ⟨[ShvarLine.assign [32, 70, 79, 79] (some [98, 97, 114])], false⟩
        [70, 79, 79] (some [98, 97, 114])).modified = true
    ∧ ¬svSetValue ⟨[ShvarLine.assign [32, 70, 79, 79] (some [98, 97, 114])], false⟩
        [70, 79, 79] (some [98, 97, 114]) =
      ⟨[ShvarLine.assign [32, 70, 79, 79] (some [98, 97, 114])], false⟩ := by decide

/-- C3 (amended): `svGetValueString` resolves `key` to the last
matching assignment; it yields nothing when the key is absent, the
stored text is absent or empty, or decoding fails (indistinguishably),
and yields the decoded value when the stored text decodes to a
non-empty (NUL-free) value. -/
theorem svGetValueString_rule (s : ShvarFile) (key : List Nat) :
    (∀ pre l post, s.lineList = pre ++ l :: post → lineMatches l key = true →
        post.all (fun x => !lineMatches x key) = true →
        findLastKey s.lineList key = some l)
    ∧ (findLastKey s.lineList key = none → svGetValueString s key = none)
    ∧ (∀ kwp, findLastKey s.lineList key = some (.assign kwp none) →
        svGetValueString s key = none)
    ∧ (∀ kwp t, findLastKey s.lineList key = some (.assign kwp (some t)) →
        svUnescape t = none → svGetValueString s key = none)
    ∧ (∀ kwp, findLastKey s.lineList key = some (.assign kwp (some [])) →
        svGetValueString s key = none)
    ∧ (∀ kwp t w, findLastKey s.lineList key = some (.assign kwp (some t)) →
        svUnescape t = some w → ¬w = [] → (0 : Nat) ∉ w →
        svGetValueString s key = some w) := by
  refine ⟨?_, ?_, ?_, ?_, ?_, ?_⟩
  · intro pre l post h1 h2 h3
    exact findLastKey_split s.lineList pre post l key h1 h2 h3
  · intro h; simp [svGetValueString, svGetValue, h]
  · intro kwp h; simp [svGetValueString, svGetValue, h]
  · intro kwp t h hu; simp [svGetValueString, svGetValue, h, hu]
  · intro kwp h
    have h0 : svUnescape ([] : List Nat) = some [] := by
      simp [svUnescape, unescGo, unescFinish]
    simp [svGetValueString, svGetValue, h, h0]
  · intro kwp t w h hu hne h0
    cases w with
    | nil => exact absurd rfl hne
    | cons c w2 =>
      have hc : ¬c = 0 := by rintro rfl; exact h0 (by simp)
      simp [svGetValueString, svGetValue, h, hu, hc]

/-- C3 witness: a plainly stored non-empty value is returned. -/
theorem svGetValueString_rule_witness :
    svGetValueString ⟨[ShvarLine.assign [70, 79, 79] (some [98])], false⟩
      [70, 79, 79] = some [98] :=
  (svGetValueString_rule ⟨[ShvarLine.assign [70, 79, 79] (some [98])], false⟩
      [70, 79, 79]).2.2.2.2.2 [70, 79, 79] [98] [98]
    (by simp [findLastKey, lineMatches, lineKey, List.dropWhile, isSpaceG])
    (by simp [svUnescape, unescGo, unescFinish, isSpaceG, trailingOk])
    (by decide) (by decide)

/-- C3 counterexample: the stored text `''` is non-empty and decodes
successfully (to the empty string), yet the getter returns nothing. -/
theorem svGetValueString_counterexample :
    ([39, 39] : List Nat) ≠ []
    ∧ svUnescape [39, 39] = some []
    ∧ svGetValueString ⟨[ShvarLine.assign [70, 79, 79] (some [39, 39])], false⟩
        [70, 79, 79] = none := by
  refine ⟨by decide, ?_, ?_⟩
  · simp [svUnescape, unescGo, unescFinish, isSpaceG, trailingOk, List.dropWhile]
  · have h1 : svUnescape [39, 39] = some [] := by
      simp [svUnescape, unescGo, unescFinish, isSpaceG, trailingOk, List.dropWhile]
    simp [svGetValueString, svGetValue, findLastKey, lineMatches, lineKey,
      List.dropWhile, isSpaceG, h1]

/-- C6: a file `FOO=1`, `FOO=2`, `FOO=3` loaded and then set to `4`
keeps only the last record (now `FOO=4`), is marked modified, and
writes back exactly the single line `FOO=4`. -/
theorem svSetValue_collapse_duplicates :
    (svSetValue (svParseContent
        [70,79,79,61,49,10, 70,79,79,61,50,10, 70,79,79,61,51,10])
        [70,79,79] (some [52])).lineList = [ShvarLine.assign [70,79,79] (some [52])]
    ∧ (svSetValue (svParseContent
        [70,79,79,61,49,10, 70,79,79,61,50,10, 70,79,79,61,51,10])
        [70,79,79] (some [52])).modified = true
    ∧ writeLines (svSetValue (svParseContent
        [70,79,79,61,49,10, 70,79,79,61,50,10, 70,79,79,61,51,10])
        [70,79,79] (some [52])).lineList = [70,79,79,61,52,10] := by
  have h : (svSetValue (svParseContent
      [70,79,79,61,49,10, 70,79,79,61,50,10, 70,79,79,61,51,10])
      [70,79,79] (some [52])).lineList =
        [ShvarLine.assign [70,79,79] (some [52])] := by decide
  refine ⟨h, by decide, ?_⟩
  rw [h]
  have h2 : svUnescape [52] = some [52] := by
    simp [svUnescape, unescGo, unescFinish, isSpaceG, trailingOk]
  simp [writeLines, emitLine, h2]

theorem lineSet_match (l : ShvarLine) (key v : List Nat)
    (h : lineMatches l key = true) :
    (lineSet l v).1 = ShvarLine.assign key (some (svEscape v)) := by
  cases l with
  | raw t => simp [lineMatches, lineKey] at h
  | assign kwp old =>
    have hk : kwp.dropWhile isSpaceG = key := by
      simpa [lineMatches, lineKey] using h
    cases old with
    | none => simp [lineSet, hk]
    | some t =>
      by_cases he : svEscape v = t
      · subst he; simp [lineSet, hk]
      · simp [lineSet, hk, he]

theorem lineClear_match_emit (l : ShvarLine) (key : List Nat)
    (h : lineMatches l key = true) : emitLine (lineClear l).1 = [] := by
  cases l with
  | raw t => simp [lineMatches, lineKey] at h
  | assign kwp old => cases old <;> simp [lineClear, emitLine]

theorem dedupKey_any (ls : List ShvarLine) (key : List Nat) :
    (dedupKey ls key).any (fun l => lineMatches l key) =
      ls.any (fun l => lineMatches l key) := by
  induction ls with
  | nil => rfl
  | cons l rest ih =>
    cases hm : lineMatches l key with
    | false => simp [dedupKey, hm, ih]
    | true =>
      cases ha : rest.any (fun l2 => lineMatches l2 key) with
      | false => simp [dedupKey, hm, ha, ih]
      | true => simp [dedupKey, hm, ha, ih]

theorem writeLines_clear_filter (ls : List ShvarLine) (key : List Nat) :
    writeLines (mapLastKey lineClear (dedupKey ls key) key).1 =
      writeLines (ls.filter (fun l => !lineMatches l key)) := by
  induction ls with
  | nil => rfl
  | cons l rest ih =>
    cases hm : lineMatches l key with
    | false =>
      simp only [dedupKey, hm, Bool.false_and, Bool.false_eq_true, if_false,
        mapLastKey, Bool.false_eq_true, Bool.not_eq_true]
      simp only [List.filter_cons, hm, Bool.not_false, if_pos trivial]
      simp [writeLines]
      simpa [writeLines] using ih
    | true =>
      cases ha : rest.any (fun l2 => lineMatches l2 key) with
      | true =>
        simp only [dedupKey, hm, ha, Bool.and_self, if_true]
        rw [ih]
        simp [List.filter_cons, hm]
      | false =>
        have hall : rest.all (fun x => !lineMatches x key) = true :=
          (anyNotAll rest key).1 ha
        have hded : dedupKey rest key = rest := dedupKey_no_match rest key hall
        have hfil : rest.filter (fun x => !lineMatches x key) = rest :=
          List.filter_eq_self.2 (fun a haa => List.all_eq_true.1 hall a haa)
        have hemit := lineClear_match_emit l key hm
        simp [dedupKey, hm, ha, hded, mapLastKey, writeLines, List.filter_cons,
          hfil, hemit]

theorem mapLastKey_set_structure (ls : List ShvarLine) (key v : List Nat)
    (hc : ls.any (fun l => lineMatches l key) = true) :
    ∃ pre post,
      (mapLastKey (fun l => lineSet l v) (dedupKey ls key) key).1 =
        pre ++ ShvarLine.assign key (some (svEscape v)) :: post
      ∧ pre.all (fun x => !lineMatches x key) = true
      ∧ post.all (fun x => !lineMatches x key) = true := by
  induction ls with
  | nil => simp at hc
  | cons l rest ih =>
    cases hm : lineMatches l key with
    | true =>
      cases ha : rest.any (fun l2 => lineMatches l2 key) with
      | true =>
        obtain ⟨pre, post, h1, h2, h3⟩ := ih ha
        exact ⟨pre, post, by simpa [dedupKey, hm, ha] using h1, h2, h3⟩
      | false =>
        have hall := (anyNotAll rest key).1 ha
        have hded := dedupKey_no_match rest key hall
        refine ⟨[], rest, ?_, by simp, hall⟩
        simp [dedupKey, hm, ha, hded, mapLastKey, lineSet_match l key v hm]
    | false =>
      have ha : rest.any (fun l2 => lineMatches l2 key) = true := by
        simpa [List.any_cons, hm] using hc
      obtain ⟨pre, post, h1, h2, h3⟩ := ih ha
      refine ⟨l :: pre, post, ?_, ?_, h3⟩
      · have hstep : (mapLastKey (fun l => lineSet l v) (dedupKey (l :: rest) key) key).1
            = l :: (mapLastKey (fun l => lineSet l v) (dedupKey rest key) key).1 := by
          simp [dedupKey, hm, mapLastKey]
        rw [hstep, h1]
        simp
      · simp [List.all_cons, hm, h2]

/-- C4: on a document containing `key`, unsetting it (equivalently,
setting the empty string through `svSetValueString`) writes back with
no `key` line at all — the output equals that of the document with all
`key` records dropped — while setting the present empty value keeps a
record that is written back as the line `key=`. -/
theorem svSetValue_empty_vs_unset (s : ShvarFile) (key : List Nat)
    (hc : s.lineList.any (fun l => lineMatches l key) = true) :
    writeLines (svSetValue s key none).lineList =
      writeLines (s.lineList.filter (fun l => !lineMatches l key))
    ∧ svSetValueString s key [] = svSetValue s key none
    ∧ ∃ pre post,
        (svSetValue s key (some [])).lineList =
          pre ++ ShvarLine.assign key (some []) :: post
        ∧ pre.all (fun x => !lineMatches x key) = true
        ∧ post.all (fun x => !lineMatches x key) = true
        ∧ emitLine (ShvarLine.assign key (some [])) = key ++ [61, 10] := by
  refine ⟨?_, ?_, ?_⟩
  · have h1 : (svSetValue s key none).lineList =
        (mapLastKey lineClear (dedupKey s.lineList key) key).1 := rfl
    rw [h1, writeLines_clear_filter]
  · simp [svSetValueString]
  · have hany1 : (dedupKey s.lineList key).any (fun l => lineMatches l key) = true := by
      rw [dedupKey_any]; exact hc
    obtain ⟨pre, post, h1, h2, h3⟩ := mapLastKey_set_structure s.lineList key [] hc
    refine ⟨pre, post, ?_, h2, h3, ?_⟩
    · have hs : (svSetValue s key (some [])).lineList =
          (mapLastKey (fun l => lineSet l []) (dedupKey s.lineList key) key).1 := by
        simp [svSetValue, hany1]
      rw [hs, h1]
      have hsv : svEscape ([] : List Nat) = [] := rfl
      rw [hsv]
    · have h0 : svUnescape ([] : List Nat) = some [] := by
        simp [svUnescape, unescGo, unescFinish]
      simp [emitLine, h0]

/-- C4 witness: on the parsed file `FOO=bar`, unsetting writes nothing
and the empty-value record writes `FOO=`. -/
theorem svSetValue_empty_vs_unset_witness :
    writeLines (svSetValue (svParseContent [70,79,79,61,98,97,114,10])
        [70,79,79] none).lineList =
      writeLines ((svParseContent [70,79,79,61,98,97,114,10]).lineList.filter
        (fun l => !lineMatches l [70,79,79])) :=
  (svSetValue_empty_vs_unset (svParseContent [70,79,79,61,98,97,114,10])
    [70,79,79] (by decide)).1

theorem unescGo_top_nil (orig acc : List Nat) (inited : Bool) :
    unescGo orig .top [] acc inited = some (unescFinish acc inited) := by
  rw [unescGo.eq_def]

theorem unescGo_top_dq_open (orig tail acc : List Nat) (inited : Bool) :
    unescGo orig .top (34 :: tail) acc inited = unescGo orig .dq tail acc true := by
  rw [unescGo.eq_def]
  simp [isSpaceG]

theorem unescGo_top_ansi_open (orig tail acc : List Nat) (inited : Bool) :
    unescGo orig .top (36 :: 39 :: tail) acc inited =
      unescGo orig .ansi tail acc true := by
  rw [unescGo.eq_def]
  simp [isSpaceG]

theorem unescGo_dq_close (orig tail acc : List Nat) (inited : Bool) :
    unescGo orig .dq (34 :: tail) acc inited = unescGo orig .top tail acc inited := by
  rw [unescGo.eq_def]
  simp

theorem unescGo_ansi_close (orig tail acc : List Nat) (inited : Bool) :
    unescGo orig .ansi (39 :: tail) acc inited = unescGo orig .top tail acc inited := by
  rw [unescGo.eq_def]
  simp

theorem unescGo_ansi_octal (orig tail acc : List Nat) (inited : Bool) (d1 d2 d3 : Nat)
    (h1 : chOctalIs d1 = true) (h2 : chOctalIs d2 = true) (h3 : chOctalIs d3 = true) :
    unescGo orig .ansi (92 :: d1 :: d2 :: d3 :: tail) acc inited =
      unescGo orig .ansi tail
        (acc ++ [((chOctalGet d1 * 8 + chOctalGet d2) * 8 + chOctalGet d3) % 256])
        inited := by
  have hr : 48 ≤ d1 ∧ d1 < 56 := by simpa [chOctalIs] using h1
  have f1 : (d1 == 97) = false := beq_eq_false_iff_ne.2 (by omega)
  have f2 : (d1 == 98) = false := beq_eq_false_iff_ne.2 (by omega)
  have f3 : (d1 == 101) = false := beq_eq_false_iff_ne.2 (by omega)
  have f4 : (d1 == 69) = false := beq_eq_false_iff_ne.2 (by omega)
  have f5 : (d1 == 102) = false := beq_eq_false_iff_ne.2 (by omega)
  have f6 : (d1 == 110) = false := beq_eq_false_iff_ne.2 (by omega)
  have f7 : (d1 == 114) = false := beq_eq_false_iff_ne.2 (by omega)
  have f8 : (d1 == 116) = false := beq_eq_false_iff_ne.2 (by omega)
  have f9 : (d1 == 118) = false := beq_eq_false_iff_ne.2 (by omega)
  have f10 : (d1 == 63) = false := beq_eq_false_iff_ne.2 (by omega)
  have f11 : (d1 == 34) = false := beq_eq_false_iff_ne.2 (by omega)
  have f12 : (d1 == 92) = false := beq_eq_false_iff_ne.2 (by omega)
  have f13 : (d1 == 39) = false := beq_eq_false_iff_ne.2 (by omega)
  rw [unescGo.eq_def]
  simp [f1, f2, f3, f4, f5, f6, f7, f8, f9, f10, f11, f12, f13, h1, readOct2, h2, h3]

theorem unescGo_ansi_literal (orig tail acc : List Nat) (inited : Bool) (b : Nat)
    (h1 : ¬b = 39) (h2 : ¬b = 92) :
    unescGo orig .ansi (b :: tail) acc inited =
      unescGo orig .ansi tail (acc ++ [b]) inited := by
  rw [unescGo.eq_def]
  simp [beq_eq_false_iff_ne.2 h1, beq_eq_false_iff_ne.2 h2]

set_option maxRecDepth 8000 in
theorem octEsc_digits : ∀ b, b < 256 →
    (chOctalIs ((48 + ((sChar b).fdiv 64).emod 8).toNat)
      && chOctalIs ((48 + ((sChar b).fdiv 8).emod 8).toNat)
      && chOctalIs ((48 + (sChar b).emod 8).toNat)) = true
    ∧ ((chOctalGet ((48 + ((sChar b).fdiv 64).emod 8).toNat) * 8
        + chOctalGet ((48 + ((sChar b).fdiv 8).emod 8).toNat)) * 8
        + chOctalGet ((48 + (sChar b).emod 8).toNat)) % 256 = b := by decide

theorem unescGo_dq_chunk (orig : List Nat) (b : Nat) (tail acc : List Nat)
    (inited : Bool) :
    unescGo orig .dq ((if charReqEscape b then [92, b] else [b]) ++ tail) acc inited =
      unescGo orig .dq tail (acc ++ [b]) inited := by
  by_cases hE : charReqEscape b = true
  · have hb : b = 34 ∨ b = 92 ∨ b = 36 ∨ b = 96 := by
      simpa [charReqEscape, or_assoc] using hE
    rw [if_pos hE]
    rcases hb with rfl | rfl | rfl | rfl <;> (rw [unescGo.eq_def]; simp)
  · have hEf : charReqEscape b = false := by simpa using hE
    have hb : ¬b = 34 ∧ ¬b = 92 ∧ ¬b = 36 ∧ ¬b = 96 := by
      simpa [charReqEscape, and_assoc] using hEf
    rw [if_neg (by simp [hEf])]
    rw [List.singleton_append, unescGo.eq_def]
    simp [beq_eq_false_iff_ne.2 hb.1, beq_eq_false_iff_ne.2 hb.2.1,
      beq_eq_false_iff_ne.2 hb.2.2.1, beq_eq_false_iff_ne.2 hb.2.2.2]

theorem unescGo_ansi_chunk (orig : List Nat) (b : Nat) (hb0 : 0 < b) (hb : b < 256)
    (tail acc : List Nat) (inited : Bool) :
    unescGo orig .ansi (ansicEscChar b ++ tail) acc inited =
      unescGo orig .ansi tail (acc ++ [b]) inited := by
  by_cases e8 : b = 8
  · subst e8; rw [show ansicEscChar 8 ++ tail = 92 :: 98 :: tail from rfl, unescGo.eq_def]
    simp
  by_cases e12 : b = 12
  · subst e12; rw [show ansicEscChar 12 ++ tail = 92 :: 102 :: tail from rfl, unescGo.eq_def]
    simp
  by_cases e10 : b = 10
  · subst e10; rw [show ansicEscChar 10 ++ tail = 92 :: 110 :: tail from rfl, unescGo.eq_def]
    simp
  by_cases e13 : b = 13
  · subst e13; rw [show ansicEscChar 13 ++ tail = 92 :: 114 :: tail from rfl, unescGo.eq_def]
    simp
  by_cases e9 : b = 9
  · subst e9; rw [show ansicEscChar 9 ++ tail = 92 :: 116 :: tail from rfl, unescGo.eq_def]
    simp
  by_cases e11 : b = 11
  · subst e11; rw [show ansicEscChar 11 ++ tail = 92 :: 118 :: tail from rfl, unescGo.eq_def]
    simp
  by_cases e92 : b = 92
  · subst e92; rw [show ansicEscChar 92 ++ tail = 92 :: 92 :: tail from rfl, unescGo.eq_def]
    simp
  by_cases e34 : b = 34
  · subst e34; rw [show ansicEscChar 34 ++ tail = 92 :: 34 :: tail from rfl, unescGo.eq_def]
    simp
  by_cases e39 : b = 39
  · subst e39; rw [show ansicEscChar 39 ++ tail = 92 :: 39 :: tail from rfl, unescGo.eq_def]
    simp
  by_cases eoct : sChar b < 32 ∨ 127 ≤ sChar b
  · have hesc : ansicEscChar b = octEsc b := by
      simp [ansicEscChar, e8, e12, e10, e13, e9, e11, e92, e34, e39, eoct]
    obtain ⟨hd, hv⟩ := octEsc_digits b hb
    simp only [Bool.and_eq_true] at hd
    rw [hesc, show octEsc b ++ tail =
        92 :: (48 + ((sChar b).fdiv 64).emod 8).toNat
          :: (48 + ((sChar b).fdiv 8).emod 8).toNat
          :: (48 + (sChar b).emod 8).toNat :: tail from rfl]
    rw [unescGo_ansi_octal orig tail acc inited _ _ _ hd.1.1 hd.1.2 hd.2, hv]
  · have hesc : ansicEscChar b = [b] := by
      simp [ansicEscChar, e8, e12, e10, e13, e9, e11, e92, e34, e39, eoct]
    rw [hesc, List.singleton_append, unescGo_ansi_literal orig tail acc inited b e39 e92]

theorem unescGo_ansi_chunks (orig : List Nat) (s : List Nat)
    (hs : ∀ b ∈ s, 0 < b ∧ b < 256) (tail acc : List Nat) (inited : Bool) :
    unescGo orig .ansi (s.flatMap ansicEscChar ++ tail) acc inited =
      unescGo orig .ansi tail (acc ++ s) inited := by
  induction s generalizing acc with
  | nil => simp
  | cons c w ih =>
    have hc := hs c (by simp)
    rw [List.flatMap_cons, List.append_assoc,
      unescGo_ansi_chunk orig c hc.1 hc.2,
      ih (fun b hb => hs b (by simp [hb]))]
    simp

theorem unescGo_dq_chunks (orig : List Nat) (s tail acc : List Nat) (inited : Bool) :
    unescGo orig .dq
        (s.flatMap (fun c => if charReqEscape c then [92, c] else [c]) ++ tail)
        acc inited =
      unescGo orig .dq tail (acc ++ s) inited := by
  induction s generalizing acc with
  | nil => simp
  | cons c w ih =>
    rw [List.flatMap_cons, List.append_assoc, unescGo_dq_chunk orig c, ih]
    simp

theorem unescGo_top_plain (orig : List Nat) (s : List Nat)
    (hs : ∀ b ∈ s, charReqEscape b = false ∧ charReqQuotes b = false
      ∧ 32 ≤ sChar b ∧ b < 256)
    (acc : List Nat) (inited : Bool) :
    unescGo orig .top s acc inited = some (unescFinish (acc ++ s) inited) := by
  induction s generalizing acc with
  | nil => rw [unescGo_top_nil]; simp
  | cons c w ih =>
    obtain ⟨hE, hQ, hsc, hlt⟩ := hs c (by simp)
    obtain ⟨n34, n92, n36, n96⟩ :
        ¬c = 34 ∧ ¬c = 92 ∧ ¬c = 36 ∧ ¬c = 96 := by
      simpa [charReqEscape, and_assoc] using hE
    obtain ⟨q32, q39, q126, q9, q124, q38, q59, q40, q41, q60, q62⟩ :
        ¬c = 32 ∧ ¬c = 39 ∧ ¬c = 126 ∧ ¬c = 9 ∧ ¬c = 124 ∧ ¬c = 38 ∧ ¬c = 59
          ∧ ¬c = 40 ∧ ¬c = 41 ∧ ¬c = 60 ∧ ¬c = 62 := by
      simpa [charReqQuotes, and_assoc] using hQ
    have hcr : 32 ≤ c := by
      unfold sChar at hsc; split at hsc <;> omega
    have hsp : isSpaceG c = false := by
      simp only [isSpaceG, Bool.or_eq_false_iff, Bool.and_eq_false_iff]
      constructor
      · exact beq_eq_false_iff_ne.2 q32
      · right; simp; omega
    have step : unescGo orig .top (c :: w) acc inited =
        unescGo orig .top w (acc ++ [c]) inited := by
      rw [unescGo.eq_def]
      simp [hsp, beq_eq_false_iff_ne.2 q59, beq_eq_false_iff_ne.2 n92,
        beq_eq_false_iff_ne.2 q39, beq_eq_false_iff_ne.2 n34,
        beq_eq_false_iff_ne.2 n36, beq_eq_false_iff_ne.2 q124,
        beq_eq_false_iff_ne.2 q38, beq_eq_false_iff_ne.2 q40,
        beq_eq_false_iff_ne.2 q41, beq_eq_false_iff_ne.2 q60,
        beq_eq_false_iff_ne.2 q62]
    rw [step, ih (fun b hb => hs b (by simp [hb]))]
    simp

theorem unescFinish_inited_ne (v : List Nat) (hvne : v ≠ [])
    (hv0 : ∀ b ∈ v, 0 < b) : unescFinish v true = v := by
  cases v with
  | nil => exact absurd rfl hvne
  | cons c w =>
    have hc0 : ¬c = 0 := by have := hv0 c (by simp); omega
    simp [unescFinish, hc0]

/-- Core round-trip: decoding the escaping of any NUL-free byte string
recovers it. -/
theorem svEscape_roundtrip (v : List Nat) (hv : ∀ b ∈ v, 0 < b ∧ b < 256) :
    svUnescape (svEscape v) = some v := by
  by_cases hA : svEscapeNeedsAnsic v = true
  · have hesc : svEscape v = escapeAnsic v := by simp [svEscape, hA]
    have hvne : v ≠ [] := by
      rintro rfl; simp [svEscapeNeedsAnsic] at hA
    show unescGo (svEscape v) .top (svEscape v) [] false = some v
    rw [hesc]
    rw [show escapeAnsic v = 36 :: 39 :: (v.flatMap ansicEscChar ++ [39]) from rfl]
    rw [unescGo_top_ansi_open, unescGo_ansi_chunks _ v hv [39] [] true,
      unescGo_ansi_close, unescGo_top_nil, List.nil_append,
      unescFinish_inited_ne v hvne (fun b hb => (hv b hb).1)]
  · have hAf : svEscapeNeedsAnsic v = false := by simpa using hA
    by_cases hQ : (v.any charReqEscape || v.any charReqQuotes) = true
    · have hesc : svEscape v =
          34 :: (v.flatMap (fun c => if charReqEscape c then [92, c] else [c]) ++ [34]) := by
        simp only [svEscape, hAf, Bool.false_eq_true, if_false, hQ, if_true]
      have hvne : v ≠ [] := by rintro rfl; simp at hQ
      show unescGo (svEscape v) .top (svEscape v) [] false = some v
      rw [hesc]
      rw [unescGo_top_dq_open, unescGo_dq_chunks, unescGo_dq_close,
        unescGo_top_nil, List.nil_append,
        unescFinish_inited_ne v hvne (fun b hb => (hv b hb).1)]
    · have hQf : v.any charReqEscape = false ∧ v.any charReqQuotes = false := by
        simpa using hQ
      have hesc : svEscape v = v := by
        simp only [svEscape, hAf, Bool.false_eq_true, if_false, hQf.1, hQf.2,
          Bool.or_self]
      show unescGo (svEscape v) .top (svEscape v) [] false = some v
      rw [hesc]
      have hs : ∀ b ∈ v, charReqEscape b = false ∧ charReqQuotes b = false
          ∧ 32 ≤ sChar b ∧ b < 256 := by
        intro b hb
        have hE : charReqEscape b = false := by
          have := hQf.1
          rw [List.any_eq_false] at this
          simpa using this b hb
        have hQb : charReqQuotes b = false := by
          have := hQf.2
          rw [List.any_eq_false] at this
          simpa using this b hb
        have hAc : 32 ≤ sChar b := by
          have h2 := hAf
          rw [svEscapeNeedsAnsic, List.any_eq_false] at h2
          have h3 := h2 b hb
          simp [hE, hQb] at h3
          exact h3
        exact ⟨hE, hQb, hAc, (hv b hb).2⟩
      rw [unescGo_top_plain _ v hs [] false]
      simp [unescFinish]

theorem shellIsName_dropWhile (key : List Nat) (h : shellIsName key = true) :
    key.dropWhile isSpaceG = key := by
  cases key with
  | nil => simp [shellIsName] at h
  | cons c rest =>
    have hc : (isAlphaG c || c == 95) = true := by
      simp only [shellIsName, Bool.and_eq_true] at h
      exact h.1
    have hc2 : (65 ≤ c ∧ c ≤ 90) ∨ (97 ≤ c ∧ c ≤ 122) ∨ c = 95 := by
      simpa [isAlphaG, or_assoc, and_assoc] using hc
    have hs : isSpaceG c = false := by
      simp only [isSpaceG, Bool.or_eq_false_iff, Bool.and_eq_false_iff]
      constructor
      · exact beq_eq_false_iff_ne.2 (by omega)
      · right; simp; omega
    simp [List.dropWhile_cons, hs]

theorem findLastKey_after_set (s : ShvarFile) (key v : List Nat)
    (hkey : key.dropWhile isSpaceG = key) :
    findLastKey (svSetValue s key (some v)).lineList key =
      some (ShvarLine.assign key (some (svEscape v))) := by
  by_cases hc : s.lineList.any (fun l => lineMatches l key) = true
  · have hany1 : (dedupKey s.lineList key).any (fun l => lineMatches l key) = true := by
      rw [dedupKey_any]; exact hc
    obtain ⟨pre, post, h1, h2, h3⟩ := mapLastKey_set_structure s.lineList key v hc
    have hll : (svSetValue s key (some v)).lineList =
        pre ++ ShvarLine.assign key (some (svEscape v)) :: post := by
      simp only [svSetValue, hany1, if_true]
      exact h1
    rw [hll]
    exact findLastKey_split _ pre post _ key rfl
      (by simp [lineMatches, lineKey, hkey]) h3
  · have hcf : s.lineList.any (fun l => lineMatches l key) = false := by simpa using hc
    have hany1 : (dedupKey s.lineList key).any (fun l => lineMatches l key) = false := by
      rw [dedupKey_any]; exact hcf
    have hll : (svSetValue s key (some v)).lineList =
        dedupKey s.lineList key ++ [ShvarLine.assign key (some (svEscape v))] := by
      simp [svSetValue, hany1, lineNewBuild]
    rw [hll]
    exact findLastKey_split _ (dedupKey s.lineList key) [] _ key (by simp)
      (by simp [lineMatches, lineKey, hkey]) (by simp)

/-- C1: decoding the encoding of any byte string containing no newline
(and, being a C string, no NUL) yields exactly that string:
`svUnescape (svEscape v) = v`. -/
theorem svUnescape_svEscape_roundtrip (v : List Nat)
    (h : ∀ b ∈ v, 0 < b ∧ b < 256 ∧ b ≠ 10) :
    svUnescape (svEscape v) = some v :=
  svEscape_roundtrip v (fun b hb => ⟨(h b hb).1, (h b hb).2.1⟩)

/-- C1 witness: a value exercising the ANSI-C tier (space and byte 1). -/
theorem svUnescape_svEscape_roundtrip_witness :
    svUnescape (svEscape [104, 32, 1]) = some [104, 32, 1] :=
  svUnescape_svEscape_roundtrip [104, 32, 1] (by decide)

/-- C10: after storing a non-empty newline-free value under a valid
shell identifier, reading it back through `svGetValueString` returns
exactly that value. -/
theorem svSetValue_svGetValueString (s : ShvarFile) (key v : List Nat)
    (hkey : shellIsName key = true) (hne : v ≠ [])
    (hv : ∀ b ∈ v, 0 < b ∧ b < 256 ∧ b ≠ 10) :
    svGetValueString (svSetValue s key (some v)) key = some v := by
  have hdk := shellIsName_dropWhile key hkey
  have hfind := findLastKey_after_set s key v hdk
  have hrt : svUnescape (svEscape v) = some v :=
    svEscape_roundtrip v (fun b hb => ⟨(hv b hb).1, (hv b hb).2.1⟩)
  cases v with
  | nil => exact absurd rfl hne
  | cons c w =>
    have hc0 : ¬c = 0 := by have := hv c (by simp); omega
    simp [svGetValueString, svGetValue, hfind, hrt, hc0]

/-- C10 witness. -/
theorem svSetValue_svGetValueString_witness :
    svGetValueString (svSetValue ⟨[], false⟩ [70, 79, 79] (some [104]))
      [70, 79, 79] = some [104] :=
  svSetValue_svGetValueString ⟨[], false⟩ [70, 79, 79] [104]
    (by decide) (by decide) (by decide)
